import Mathlib

/-!
# Verification of the DOD virtual-mining engine

Shallow embedding of the DOD canister sources (`src/canisters/...`) in Lean 4,
together with theorems settling the frozen claims about the engine.

Conventions used throughout:

* Rust `u64` / `u128` values are modelled as `Nat`; where wrap-around of a
  `u8` matters (the bitwork arithmetic) the reduction `% 256` is written
  explicitly, matching release-mode wrapping semantics.
* Fallible Rust code (`Result<_, String>`) becomes `Except String _`;
  a Rust panic (`unwrap` on `None`, out-of-bounds index) is modelled by an
  `Option` wrapper around the whole computation, `none` meaning a trap.
* `candid::Principal` is modelled as `Nat`; the canister's own principal
  (`ic_cdk::id()`) is an explicit parameter.
* Stable BTree maps become association lists or Lean functions, as noted at
  each store.
* Computations that leave the replica (secp256k1 signature verification,
  SHA-256 txids, base64, bech32 address decoding) and `f64` arithmetic are
  abstracted as explicit oracle parameters; every claim settled below is
  independent of the oracle instantiation, and each concrete evaluation
  instantiates them explicitly.
-/

namespace DOD

/-! ## Bitwork (src/canisters/libs/dod_utils/src/bitwork.rs)

`Bitwork` is a pair of a `u64` prefix length `pre` and a hex-nibble string
`post_hex`.  The Rust code manipulates `post_hex` through
`u8::from_str_radix(_, 16)` and `format!("{:x}", _)`; both are modelled
character-exactly below. -/

/-- The sixteen lowercase hex digit characters, indexed by value.
Values ≥ 15 all map to `'f'`; the callers only pass nibbles. -/
def hexDigitChar (n : Nat) : Char :=
  match n with
  | 0 => '0' | 1 => '1' | 2 => '2' | 3 => '3' | 4 => '4' | 5 => '5' | 6 => '6' | 7 => '7'
  | 8 => '8' | 9 => '9' | 10 => 'a' | 11 => 'b' | 12 => 'c' | 13 => 'd' | 14 => 'e' | _ => 'f'

/-- Rust `format!("{:x}", n)` for `n < 256` (every value this code base ever
formats is a wrapped `u8`, hence `< 256`): one hex digit below 16, two above. -/
def natToHexStr (n : Nat) : String :=
  if n < 16 then String.mk [hexDigitChar n]
  else String.mk [hexDigitChar (n / 16 % 16), hexDigitChar (n % 16)]

/-- Value of a single hex digit, upper or lower case, as accepted by
`u8::from_str_radix(_, 16)`. -/
def hexCharVal (c : Char) : Option Nat :=
  if '0' ≤ c ∧ c ≤ '9' then some (c.toNat - '0'.toNat)
  else if 'a' ≤ c ∧ c ≤ 'f' then some (c.toNat - 'a'.toNat + 10)
  else if 'A' ≤ c ∧ c ≤ 'F' then some (c.toNat - 'A'.toNat + 10)
  else none

/-- Rust `u8::from_str_radix(s, 16)`: fails on the empty string, on any
non-hex character, and on overflow past 255. -/
def parseHexByte (s : String) : Option Nat :=
  if s.isEmpty then none
  else
    s.data.foldl
      (fun acc c =>
        match acc, hexCharVal c with
        | some v, some d => if v * 16 + d ≤ 255 then some (v * 16 + d) else none
        | _, _ => none)
      (some 0)

instance {ε α : Type} [DecidableEq ε] [DecidableEq α] : DecidableEq (Except ε α) :=
  fun x y =>
    match x, y with
    | .ok a, .ok b =>
      if h : a = b then isTrue (by rw [h])
      else isFalse (fun hc => h (Except.ok.inj hc))
    | .error a, .error b =>
      if h : a = b then isTrue (by rw [h])
      else isFalse (fun hc => h (Except.error.inj hc))
    | .ok _, .error _ => isFalse (fun hc => Except.noConfusion hc)
    | .error _, .ok _ => isFalse (fun hc => Except.noConfusion hc)

/-- `dod_utils::bitwork::Bitwork`. -/
structure Bitwork where
  pre : Nat
  post_hex : String
  deriving DecidableEq, Repr

/-- The numeric value `pre * 16 + post_hex` by which the Rust `Ord` instance
compares bitworks (`impl Ord for Bitwork`). -/
def bitworkValue (b : Bitwork) : Nat :=
  b.pre * 16 + (parseHexByte b.post_hex).getD 0

/-- The sixteen canonical single-nibble strings. -/
def hexNibbleStrings : List String :=
  ["0", "1", "2", "3", "4", "5", "6", "7", "8", "9", "a", "b", "c", "d", "e", "f"]

/-- A well-formed difficulty per the data model (§3 of the spec): `pre ≤ 64`,
`post_hex` a single hex nibble `0`–`f`, and `pre = 64 → post_hex = "0"`. -/
def Bitwork.specValid (b : Bitwork) : Prop :=
  b.pre ≤ 64 ∧ b.post_hex ∈ hexNibbleStrings ∧ (b.pre = 64 → b.post_hex = "0")

instance (b : Bitwork) : Decidable b.specValid := by
  unfold Bitwork.specValid; infer_instance

/-- `dod_utils::bitwork::bitwork_plus_bit_hex`.  `num` is a `u8`; the
wrapping subtraction `16 - num` and addition `e + num` are written mod 256. -/
def bitwork_plus_bit_hex (b : Bitwork) (num : Nat) : Except String Bitwork :=
  if b.pre = 64 then .ok ⟨64, "0"⟩
  else
    match parseHexByte b.post_hex with
    | none => .error "Invalid bitwork"
    | some e =>
      let n := num % 256
      if e = (16 + 256 - n) % 256 then
        let pre := b.pre + 1
        .ok ⟨if pre > 64 then 64 else pre, "0"⟩
      else
        .ok ⟨if b.pre > 64 then 64 else b.pre, natToHexStr ((e + n) % 256)⟩

/-- `dod_utils::bitwork::bitwork_minus_bit_hex`.  The final
`if pre < 0 { pre = 0 }` of the source is a no-op on unsigned values and is
omitted; `e + 16 - num` wraps as a `u8`, hence the `% 256`. -/
def bitwork_minus_bit_hex (b : Bitwork) (num : Nat) : Except String Bitwork :=
  if b.pre = 0 ∧ b.post_hex = "0" then .ok b
  else
    match parseHexByte b.post_hex with
    | none => .error "Invalid bitwork"
    | some e =>
      let n := num % 256
      if e = (16 + 256 - n) % 256 then
        .ok ⟨if b.pre > 0 then b.pre - 1 else b.pre, "f"⟩
      else if e ≥ n then
        .ok ⟨b.pre, natToHexStr (e - n)⟩
      else if b.pre > 0 then
        .ok ⟨b.pre - 1, natToHexStr ((e + 16 + 512 - n) % 256)⟩
      else
        .ok ⟨b.pre, natToHexStr 0⟩

/-- Parsing is a left inverse of formatting on nibbles. -/
theorem parseHexByte_natToHexStr : ∀ v < 16, parseHexByte (natToHexStr v) = some v := by
  decide

/-- Every canonical nibble string is the formatting of its value. -/
theorem hexNibble_canonical :
    ∀ s ∈ hexNibbleStrings, ∃ e, e < 16 ∧ parseHexByte s = some e ∧ natToHexStr e = s := by
  decide

theorem natToHexStr_eq_zero_iff : ∀ e < 16, (natToHexStr e = "0" ↔ e = 0) := by
  decide

/-- Round-trip of the difficulty adjustment in the cases where it actually
holds: either no borrow happens (`n ≤ e` and `e + n ≠ 16`), or the nibble is
zero and the borrow from `pre` is exactly undone by the carry
(`e = 0`, `1 ≤ n ≤ 15`, `1 ≤ p`). -/
theorem bitwork_roundtrip_core (p e n : Nat) (hp : p ≤ 64) (he : e < 16)
    (h64 : p = 64 → e = 0)
    (h : (n ≤ e ∧ e + n ≠ 16) ∨ (e = 0 ∧ 1 ≤ n ∧ n ≤ 15 ∧ 1 ≤ p)) :
    (bitwork_minus_bit_hex ⟨p, natToHexStr e⟩ n).bind
      (fun x => bitwork_plus_bit_hex x n) = .ok ⟨p, natToHexStr e⟩ := by
  rcases h with ⟨hn, hne⟩ | ⟨he0, hn1, hn15, hp1⟩
  · -- no-borrow case
    have hn16 : n < 16 := lt_of_le_of_lt hn he
    by_cases hz : p = 0 ∧ natToHexStr e = "0"
    · have he0 : e = 0 := (natToHexStr_eq_zero_iff e he).1 hz.2
      have hn0 : n = 0 := by omega
      obtain ⟨hp0, -⟩ := hz
      subst he0 hn0 hp0
      decide
    · by_cases hp64 : p = 64
      · have he0 : e = 0 := h64 hp64
        have hn0 : n = 0 := by omega
        subst he0 hn0 hp64
        decide
      · have hparse := parseHexByte_natToHexStr e he
        have hparse2 := parseHexByte_natToHexStr (e - n) (by omega)
        have hmin : bitwork_minus_bit_hex ⟨p, natToHexStr e⟩ n
            = .ok ⟨p, natToHexStr (e - n)⟩ := by
          unfold bitwork_minus_bit_hex
          rw [if_neg hz, hparse]
          simp only []
          rw [if_neg (by omega : ¬ e = (16 + 256 - n % 256) % 256),
            if_pos (by omega : e ≥ n % 256)]
          have : e - n % 256 = e - n := by omega
          rw [this]
        have hplus : bitwork_plus_bit_hex ⟨p, natToHexStr (e - n)⟩ n
            = .ok ⟨p, natToHexStr e⟩ := by
          unfold bitwork_plus_bit_hex
          rw [if_neg hp64, hparse2]
          simp only []
          rw [if_neg (by omega : ¬ e - n = (16 + 256 - n % 256) % 256),
            if_neg (by omega : ¬ p > 64)]
          have : (e - n + n % 256) % 256 = e := by omega
          rw [this]
        rw [hmin]
        simpa [Except.bind] using hplus
  · -- borrow-from-zero case
    subst he0
    have hz : ¬ (p = 0 ∧ natToHexStr 0 = "0") := by
      intro hzz
      omega
    have hparse := parseHexByte_natToHexStr 0 (by omega)
    have hparse2 := parseHexByte_natToHexStr (16 - n) (by omega)
    have hmin : bitwork_minus_bit_hex ⟨p, natToHexStr 0⟩ n
        = .ok ⟨p - 1, natToHexStr (16 - n)⟩ := by
      unfold bitwork_minus_bit_hex
      rw [if_neg hz, hparse]
      simp only []
      rw [if_neg (by omega : ¬ 0 = (16 + 256 - n % 256) % 256),
        if_neg (by omega : ¬ 0 ≥ n % 256), if_pos (by omega : p > 0)]
      have : (0 + 16 + 512 - n % 256) % 256 = 16 - n := by omega
      rw [this]
    have hplus : bitwork_plus_bit_hex ⟨p - 1, natToHexStr (16 - n)⟩ n
        = .ok ⟨p, natToHexStr 0⟩ := by
      unfold bitwork_plus_bit_hex
      rw [if_neg (by omega : ¬ p - 1 = 64), hparse2]
      simp only []
      rw [if_pos (by omega : 16 - n = (16 + 256 - n % 256) % 256),
        if_neg (by omega : ¬ p - 1 + 1 > 64)]
      have hpp : p - 1 + 1 = p := by omega
      rw [hpp]
      have h0 : natToHexStr 0 = "0" := rfl
      rw [h0]
    rw [hmin]
    simpa [Except.bind] using hplus

/-- C9: the claimed unconditional round-trip fails.  `b = (1, "3")`, `n = 4`
is a valid bitwork with `b + n` and `b - n` both inside the clamped range
`[(0,"0"), (64,"0")]` (values 19 + 4 = 23 ≤ 1024 and 19 - 4 = 15 ≥ 0), yet
`plus_bit(minus_bit(b, 4), 4)` returns `(0, "13")`, not `b`: the borrow
writes nibble `f`, and adding 4 to `f` formats the two-digit string `"13"`
instead of carrying. -/
theorem c9_roundtrip_counterexample :
    (Bitwork.mk 1 "3").specValid ∧
    4 ≤ bitworkValue ⟨1, "3"⟩ ∧ bitworkValue ⟨1, "3"⟩ + 4 ≤ 1024 ∧
    (bitwork_minus_bit_hex ⟨1, "3"⟩ 4).bind (fun x => bitwork_plus_bit_hex x 4)
      = .ok ⟨0, "13"⟩ ∧
    (Bitwork.mk 0 "13") ≠ ⟨1, "3"⟩ := by
  decide

/-- C9 (amended): `bitwork_plus_bit_hex (bitwork_minus_bit_hex b n) n = b`
holds for a valid bitwork `b` with nibble value `e` exactly in the cases
`n ≤ e ∧ e + n ≠ 16` (no borrow) and `e = 0 ∧ 1 ≤ n ≤ 15 ∧ 1 ≤ b.pre`
(borrow undone by carry); in-range `b ± n` alone does not suffice. -/
theorem c9_difficulty_roundtrip (b : Bitwork) (num : Nat) (hb : b.specValid)
    (h : (num ≤ (parseHexByte b.post_hex).getD 0
            ∧ (parseHexByte b.post_hex).getD 0 + num ≠ 16)
       ∨ ((parseHexByte b.post_hex).getD 0 = 0 ∧ 1 ≤ num ∧ num ≤ 15 ∧ 1 ≤ b.pre)) :
    (bitwork_minus_bit_hex b num).bind (fun x => bitwork_plus_bit_hex x num)
      = .ok b := by
  obtain ⟨hpre, hmem, h64⟩ := hb
  obtain ⟨e, he, hparse, hcanon⟩ := hexNibble_canonical _ hmem
  rw [hparse] at h
  simp only [Option.getD_some] at h
  have hb : b = ⟨b.pre, natToHexStr e⟩ := by
    cases b
    simp only at hcanon ⊢
    rw [hcanon]
  rw [hb]
  exact bitwork_roundtrip_core b.pre e num hpre he
    (fun hp => by
      have h0 := h64 hp
      rw [h0] at hparse
      have hpz : parseHexByte "0" = some 0 := by decide
      exact (Option.some.inj (hpz.symm.trans hparse)).symm) h

/-- Concrete instantiation of `c9_difficulty_roundtrip` at `b = (0, "7")`,
`n = 3`. -/
theorem c9_difficulty_roundtrip_witness :
    (Bitwork.mk 0 "7").specValid ∧
    (bitwork_minus_bit_hex ⟨0, "7"⟩ 3).bind (fun x => bitwork_plus_bit_hex x 3)
      = .ok ⟨0, "7"⟩ :=
  ⟨by decide, c9_difficulty_roundtrip ⟨0, "7"⟩ 3 (by decide) (Or.inl (by decide))⟩

/-! ## Order book (src/canisters/dapp/dod/mod/src/orders/mod.rs and the
order-related methods of src/canisters/dapp/dod/mod/src/service/mod.rs)

`candid::Principal` is modelled as `Nat`.  `StableUserOrders`
(`Principal → NewBlockOrderValue`) becomes a Lean function into `Option`;
`StableBlockOrders` (`(BlockNumber, Principal) → OrderDetail`) becomes an
association list whose `insertBO` replaces an existing key, mirroring
`BTreeMap::insert`. -/

abbrev Principal := Nat

/-- `dod_utils::types::OrderStatus` (module absent from src; layout from the
spec data model §3, variants as used throughout service/mod.rs). -/
inductive OrderStatus
  | Pending
  | Filled
  | Cancelled
  deriving DecidableEq, Repr

/-- `dod_utils::types::OrderDetail` as used by the order stores. -/
structure OrderDetail where
  value : Nat
  status : OrderStatus
  deriving DecidableEq, Repr

/-- `dod_utils::types::NewBlockOrderValue`: a user's single order, a block
range `r = (start, end)` and a per-block amount `v`. -/
structure NewBlockOrderValue where
  r : Nat × Nat
  v : Nat
  deriving DecidableEq, Repr

abbrev UserOrders := Principal → Option NewBlockOrderValue

abbrev BlockOrders := List ((Nat × Principal) × OrderDetail)

def lookupBO (bo : BlockOrders) (k : Nat × Principal) : Option OrderDetail :=
  (bo.find? (fun e => decide (e.1 = k))).map (fun e => e.2)

def insertBO (bo : BlockOrders) (k : Nat × Principal) (v : OrderDetail) : BlockOrders :=
  match bo with
  | [] => [(k, v)]
  | e :: rest => if e.1 = k then (k, v) :: rest else e :: insertBO rest k v

theorem lookupBO_insertBO_self (bo : BlockOrders) (k : Nat × Principal) (v : OrderDetail) :
    lookupBO (insertBO bo k v) k = some v := by
  induction bo with
  | nil => simp [insertBO, lookupBO, List.find?]
  | cons e rest ih =>
    by_cases h : e.1 = k
    · simp [insertBO, h, lookupBO, List.find?]
    · simp only [insertBO, if_neg h]
      simpa [lookupBO, List.find?, h] using ih

theorem lookupBO_insertBO_ne (bo : BlockOrders) (k k' : Nat × Principal) (v : OrderDetail)
    (h : k' ≠ k) : lookupBO (insertBO bo k v) k' = lookupBO bo k' := by
  have h2 : k ≠ k' := Ne.symm h
  induction bo with
  | nil => simp [insertBO, lookupBO, List.find?, h2]
  | cons e rest ih =>
    by_cases he : e.1 = k
    · simp [insertBO, he, lookupBO, List.find?, h2]
    · simp only [insertBO, if_neg he]
      by_cases he' : e.1 = k'
      · simp [lookupBO, List.find?, he']
      · simpa [lookupBO, List.find?, he'] using ih

/-- `NewUserOrders::get_user_bet` (orders/mod.rs:230-243).  Note that the
source only tests the upper bound `block_number < range.1`; the order's
start height `range.0` is never consulted. -/
def get_user_bet (user_orders : UserOrders) (user_id : Principal)
    (block_number : Nat) : Option Nat :=
  match user_orders user_id with
  | some o => if block_number < o.r.2 then some o.v else none
  | none => none

/-- `NewBlockOrders::write_order_by_block_height`. -/
def write_order_by_block_height (bo : BlockOrders) (block_number : Nat)
    (user_id : Principal) (value : Nat) (status : OrderStatus) : BlockOrders :=
  insertBO bo (block_number, user_id) ⟨value, status⟩

/-- `NewUserOrders::update_order`: overwrite the user's single order. -/
def update_order (uo : UserOrders) (user_id : Principal) (range : Nat × Nat)
    (amount : Nat) : UserOrders :=
  fun u => if u = user_id then some ⟨range, amount⟩ else uo u

/-- A `for block in lo..lo+len` loop writing the same `(value, status)` at
every height, as in both write loops of `user_put_order_v2`. -/
def writeOrderRun (bo : BlockOrders) (user : Principal) (lo len : Nat)
    (value : Nat) (status : OrderStatus) : BlockOrders :=
  (List.range' lo len).foldl
    (fun m b => write_order_by_block_height m b user value status) bo

/-- `DodService::user_put_order_v2` (service/mod.rs:1639-1675).  The pending
loop covers `range.0..range.1`; the cancellation loop runs when
`old.r.1 >= range.1` and covers the inclusive `range.1..=old.r.1`. -/
def user_put_order_v2 (uo : UserOrders) (bo : BlockOrders) (user : Principal)
    (range : Nat × Nat) (amount : Nat) : UserOrders × BlockOrders :=
  let old := uo user
  let uo2 := update_order uo user range amount
  let bo2 := writeOrderRun bo user range.1 (range.2 - range.1) amount .Pending
  let bo3 :=
    match old with
    | some o =>
      if o.r.2 ≥ range.2 then
        writeOrderRun bo2 user range.2 (o.r.2 + 1 - range.2) 0 .Cancelled
      else bo2
    | none => bo2
  (uo2, bo3)

theorem lookupBO_writeOrderRun (bo : BlockOrders) (user : Principal)
    (lo len value : Nat) (status : OrderStatus) (b : Nat) (u : Principal) :
    lookupBO (writeOrderRun bo user lo len value status) (b, u)
      = if u = user ∧ lo ≤ b ∧ b < lo + len then some ⟨value, status⟩
        else lookupBO bo (b, u) := by
  induction len generalizing lo bo with
  | zero =>
    rw [if_neg (by omega)]
    simp [writeOrderRun]
  | succ n ih =>
    unfold writeOrderRun
    rw [List.range'_succ, List.foldl_cons]
    rw [show (List.range' (lo + 1) n).foldl
        (fun m b => write_order_by_block_height m b user value status)
        (write_order_by_block_height bo lo user value status)
      = writeOrderRun (write_order_by_block_height bo lo user value status)
          user (lo + 1) n value status from rfl]
    rw [ih]
    by_cases hcu : u = user
    · subst hcu
      simp only [eq_self_iff_true, true_and]
      by_cases h1 : lo + 1 ≤ b ∧ b < lo + 1 + n
      · rw [if_pos h1, if_pos (by omega)]
      · rw [if_neg h1]
        by_cases hb : b = lo
        · subst hb
          rw [write_order_by_block_height, lookupBO_insertBO_self,
            if_pos (by omega)]
        · rw [write_order_by_block_height,
            lookupBO_insertBO_ne _ _ _ _ (fun hx => hb (congrArg Prod.fst hx)),
            if_neg (by omega)]
    · rw [if_neg (fun hx => hcu hx.1), if_neg (fun hx => hcu hx.1),
        write_order_by_block_height,
        lookupBO_insertBO_ne _ _ _ _ (fun hx => hcu (congrArg Prod.snd hx))]

/-- The half-open/inclusive distinction needed by C7: is `b` inside the
cancellation tail `range_end..=old_end` of a prior order? -/
def inCancelTail (old : Option NewBlockOrderValue) (hi b : Nat) : Prop :=
  ∃ o, old = some o ∧ hi ≤ o.r.2 ∧ hi ≤ b ∧ b ≤ o.r.2

theorem inCancelTail_none (hi b : Nat) : ¬ inCancelTail none hi b := by
  rintro ⟨o, ho, -⟩
  cases ho

theorem inCancelTail_some (o : NewBlockOrderValue) (hi b : Nat) :
    inCancelTail (some o) hi b ↔ hi ≤ o.r.2 ∧ hi ≤ b ∧ b ≤ o.r.2 := by
  constructor
  · rintro ⟨o2, ho2, hh⟩
    injection ho2 with he
    subst he
    exact hh
  · intro hh
    exact ⟨o, rfl, hh⟩

instance (old : Option NewBlockOrderValue) (hi b : Nat) :
    Decidable (inCancelTail old hi b) :=
  match old with
  | none => isFalse (inCancelTail_none hi b)
  | some o =>
    decidable_of_iff (hi ≤ o.r.2 ∧ hi ≤ b ∧ b ≤ o.r.2) (inCancelTail_some o hi b).symm

/-- C7: the claimed half-open cancellation `[range.end, prior.end)` fails.
With a prior order `(10, 20)` and a new order `(12, 15)`, the code writes a
`(0, Cancelled)` entry at height 20 = prior.end (the loop is the inclusive
`range.1..=old.r.1`), where the claim says no entry is written. -/
theorem c7_cancel_tail_counterexample :
    lookupBO (user_put_order_v2
        (fun u => if u = 7 then some ⟨(10, 20), 100⟩ else none)
        (writeOrderRun [] 7 10 10 100 .Pending)
        7 (12, 15) 200).2 (20, 7) = some ⟨0, .Cancelled⟩ ∧
    lookupBO (writeOrderRun [] 7 10 10 100 .Pending) (20, 7) = none := by
  decide

/-- C7 (amended): `user_put_order_v2` writes `(amount, Pending)` exactly on
`[range.start, range.end)`, and whenever a prior order exists with
`prior.end ≥ range.end` it writes `(0, Cancelled)` exactly on the inclusive
interval `[range.end, prior.end]` — including one entry at height
`prior.end`, and including one entry at `range.end` when
`prior.end = range.end`; every other entry is untouched. -/
theorem c7_put_order_block_entries (uo : UserOrders) (bo : BlockOrders)
    (user : Principal) (range : Nat × Nat) (amount : Nat) (b : Nat)
    (u : Principal) :
    lookupBO (user_put_order_v2 uo bo user range amount).2 (b, u)
      = if u = user ∧ inCancelTail (uo user) range.2 b then some ⟨0, .Cancelled⟩
        else if u = user ∧ range.1 ≤ b ∧ b < range.2 then some ⟨amount, .Pending⟩
        else lookupBO bo (b, u) := by
  by_cases hcu : u = user
  · subst hcu
    unfold user_put_order_v2
    cases huo : uo u with
    | none =>
      simp only [huo]
      rw [lookupBO_writeOrderRun]
      simp only [eq_self_iff_true, true_and]
      rw [if_neg (inCancelTail_none range.2 b)]
      by_cases h : range.1 ≤ b ∧ b < range.2
      · rw [if_pos (by omega), if_pos h]
      · rw [if_neg (by omega), if_neg h]
    | some o =>
      simp only [huo]
      by_cases hge : o.r.2 ≥ range.2
      · rw [if_pos hge, lookupBO_writeOrderRun, lookupBO_writeOrderRun]
        simp only [eq_self_iff_true, true_and, inCancelTail_some]
        by_cases hc : range.2 ≤ b ∧ b ≤ o.r.2
        · rw [if_pos (show range.2 ≤ b ∧ b < range.2 + (o.r.2 + 1 - range.2) by omega),
            if_pos (show range.2 ≤ o.r.2 ∧ range.2 ≤ b ∧ b ≤ o.r.2 by omega)]
        · rw [if_neg (show ¬ (range.2 ≤ b ∧ b < range.2 + (o.r.2 + 1 - range.2)) by omega),
            if_neg (show ¬ (range.2 ≤ o.r.2 ∧ range.2 ≤ b ∧ b ≤ o.r.2) by omega)]
          by_cases h : range.1 ≤ b ∧ b < range.2
          · rw [if_pos (show range.1 ≤ b ∧ b < range.1 + (range.2 - range.1) by omega),
              if_pos h]
          · rw [if_neg (show ¬ (range.1 ≤ b ∧ b < range.1 + (range.2 - range.1)) by omega),
              if_neg h]
      · rw [if_neg hge, lookupBO_writeOrderRun]
        simp only [eq_self_iff_true, true_and, inCancelTail_some]
        rw [if_neg (show ¬ (range.2 ≤ o.r.2 ∧ range.2 ≤ b ∧ b ≤ o.r.2) by omega)]
        by_cases h : range.1 ≤ b ∧ b < range.2
        · rw [if_pos (show range.1 ≤ b ∧ b < range.1 + (range.2 - range.1) by omega),
            if_pos h]
        · rw [if_neg (show ¬ (range.1 ≤ b ∧ b < range.1 + (range.2 - range.1)) by omega),
            if_neg h]
  · unfold user_put_order_v2
    cases huo : uo user with
    | none =>
      simp only [huo]
      rw [lookupBO_writeOrderRun, if_neg (fun hx => hcu hx.1),
        if_neg (fun hx => hcu hx.1), if_neg (fun hx => hcu hx.1)]
    | some o =>
      simp only [huo]
      by_cases hge : o.r.2 ≥ range.2
      · rw [if_pos hge, lookupBO_writeOrderRun, lookupBO_writeOrderRun,
          if_neg (fun hx => hcu hx.1), if_neg (fun hx => hcu hx.1),
          if_neg (fun hx => hcu hx.1), if_neg (fun hx => hcu hx.1)]
      · rw [if_neg hge, lookupBO_writeOrderRun, if_neg (fun hx => hcu hx.1),
          if_neg (fun hx => hcu hx.1), if_neg (fun hx => hcu hx.1)]

/-- C6: the claimed activity predicate `start ≤ h < end` fails: with a
current order `(14, 18)` the height `12 < 14` is still treated as active by
`get_user_bet` (only `h < end` is tested). -/
theorem c6_active_counterexample :
    get_user_bet (fun u => if u = 7 then some ⟨(14, 18), 200⟩ else none) 7 12
      = some 200 ∧
    ¬ (14 ≤ 12 ∧ 12 < 18) := by
  decide

/-- C6 (amended): `get_user_bet` — the activity predicate used both by
`update_users_balance_v2` and by the deposit sum `get_block_total_cycles` —
reports a bet at height `h` iff the user has an order and `h < end`; the
start of the range is ignored, so heights below `start` are also active. -/
theorem c6_get_user_bet_iff (uo : UserOrders) (u : Principal) (h v : Nat) :
    get_user_bet uo u h = some v
      ↔ ∃ o, uo u = some o ∧ o.v = v ∧ h < o.r.2 := by
  unfold get_user_bet
  cases huo : uo u with
  | none => simp
  | some o =>
    by_cases hlt : h < o.r.2
    · simp only [if_pos hlt]
      constructor
      · intro hv
        exact ⟨o, rfl, Option.some.inj hv, hlt⟩
      · rintro ⟨o2, ho2, hv, -⟩
        injection ho2 with he
        subst he
        rw [hv]
    · simp only [if_neg hlt]
      constructor
      · intro hv
        cases hv
      · rintro ⟨o2, ho2, -, hlt2⟩
        injection ho2 with he
        subst he
        omega

/-! ## Stakers and per-block settlement of user balances
(src/canisters/dapp/dod/mod/src/service/mod.rs:1726-1791)

The `f64` share arithmetic of the source
(`share = actual_bet as f64 / total_cycles as f64`,
`r = (reward as f64 * share).floor() as u64` and the halving ratio inside
`get_block_reward_by_height`) is abstracted into the two oracle functions of
`SettleOracles`; no claim below depends on their values. -/

/-- `crate::types::UserDetail` (types.rs:76-83). -/
structure UserDetail where
  principal : Principal
  subaccount : List Nat
  balance : Nat
  claimed_dod : Nat
  total_dod : Nat
  cycle_burning_rate : Nat
  deriving DecidableEq, Repr

abbrev Stakers := Principal → Option UserDetail

def insertStaker (st : Stakers) (p : Principal) (d : UserDetail) : Stakers :=
  fun q => if q = p then some d else st q

/-- Oracles for the floating-point reward arithmetic of settlement:
`rewardAt h` is `get_block_reward_by_height(h, halving)` and
`rewardFloor reward actual total` is `(reward as f64 * (actual as f64 /
total as f64)).floor() as u64`. -/
structure SettleOracles where
  rewardAt : Nat → Nat
  rewardFloor : Nat → Nat → Nat → Nat

/-- `NewBlockOrders::get_orders_by_block_height` (orders/mod.rs:70-79):
the entries at the given height whose user either has a current bet
(`get_user_bet(_, block).is_some()`) or is the canister itself (`id()`).
The BTreeMap range scan starting at `(block, Principal::anonymous())` is
modelled as the entries with exactly this height. -/
def get_orders_by_block_height (uo : UserOrders) (selfId : Principal)
    (bo : BlockOrders) (block : Nat) : List (Principal × OrderDetail) :=
  (bo.filter (fun e => decide (e.1.1 = block) &&
      ((get_user_bet uo e.1.2 block).isSome || decide (e.1.2 = selfId)))).map
    (fun e => (e.1.2, e.2))

/-- Loop body of `DodService::update_users_balance_v2` for a single entry
`(p, v)` of the snapshot.  Note: the `Filled` write is keyed only on
`status == Pending`, independently of whether the balance covered the bet. -/
def settleOneOrder (uo : UserOrders) (orc : SettleOracles)
    (block total_cycles : Nat) (s : Stakers × BlockOrders)
    (e : Principal × OrderDetail) : Stakers × BlockOrders :=
  match s.1 e.1 with
  | none => s
  | some user =>
    let is_range := (get_user_bet uo user.principal block).isSome
    let user_bet := e.2.value
    let status := e.2.status
    let debit := user.balance ≥ user_bet ∧ is_range = true
        ∧ status ≠ .Cancelled ∧ status ≠ .Filled
    let actual_bet := if debit then user_bet else 0
    let new_balance := if debit then user.balance - user_bet else user.balance
    let r := orc.rewardFloor (orc.rewardAt block) actual_bet total_cycles
    let bo2 :=
      if status = .Pending
        then write_order_by_block_height s.2 block e.1 user_bet .Filled
        else s.2
    (insertStaker s.1 e.1
      { user with balance := new_balance, total_dod := user.total_dod + r },
      bo2)

/-- `DodService::update_users_balance_v2` (service/mod.rs:1726-1791): fold
the loop body over the snapshot of the block's (filtered) order entries. -/
def update_users_balance_v2 (uo : UserOrders) (selfId : Principal)
    (orc : SettleOracles) (st : Stakers) (bo : BlockOrders)
    (block total_cycles : Nat) : Stakers × BlockOrders :=
  (get_orders_by_block_height uo selfId bo block).foldl
    (settleOneOrder uo orc block total_cycles) (st, bo)

/-- C4: a `Pending` entry whose user's balance does NOT cover the bet is
still flipped to `Filled` (while the balance stays untouched), contradicting
the claim that the status is left unchanged in that case.  Concrete run:
user 7 with balance 50, entry `(5, 7) ↦ (100, Pending)`, active order
`(0, 10)`. -/
theorem c4_settle_counterexample :
    (let res := update_users_balance_v2
        (fun u => if u = 7 then some ⟨(0, 10), 100⟩ else none) 0
        ⟨fun _ => 0, fun _ _ _ => 0⟩
        (fun u => if u = 7 then some ⟨7, [], 50, 0, 0, 0⟩ else none)
        [((5, 7), ⟨100, .Pending⟩)] 5 100
     lookupBO res.2 (5, 7) = some ⟨100, .Filled⟩
       ∧ (res.1 7).map UserDetail.balance = some 50)
    ∧ 50 < 100 := by
  constructor
  · decide
  · decide

/-- C4 (amended): for every entry `(p, v)` processed at block `N` with the
user present in the staker registry: the balance is debited by `v.value`
exactly when `balance ≥ v.value`, the user's current order satisfies
`N < end` (`get_user_bet` — the start height is not consulted), and the
status is `Pending`; but the status is rewritten `Pending → Filled` whenever
it was `Pending`, regardless of the balance; non-`Pending` entries leave the
store unchanged. -/
theorem c4_settle_entry (uo : UserOrders) (orc : SettleOracles)
    (block total_cycles : Nat) (st : Stakers) (bo : BlockOrders)
    (p : Principal) (v : OrderDetail) (user : UserDetail)
    (hu : st p = some user) :
    (settleOneOrder uo orc block total_cycles (st, bo) (p, v)).1 p
      = some { user with
          balance :=
            if user.balance ≥ v.value
                ∧ (get_user_bet uo user.principal block).isSome = true
                ∧ v.status ≠ .Cancelled ∧ v.status ≠ .Filled
              then user.balance - v.value else user.balance,
          total_dod := user.total_dod
            + orc.rewardFloor (orc.rewardAt block)
                (if user.balance ≥ v.value
                    ∧ (get_user_bet uo user.principal block).isSome = true
                    ∧ v.status ≠ .Cancelled ∧ v.status ≠ .Filled
                  then v.value else 0) total_cycles }
    ∧ (v.status = .Pending →
        lookupBO (settleOneOrder uo orc block total_cycles (st, bo) (p, v)).2
            (block, p)
          = some ⟨v.value, .Filled⟩)
    ∧ (v.status ≠ .Pending →
        (settleOneOrder uo orc block total_cycles (st, bo) (p, v)).2 = bo) := by
  unfold settleOneOrder
  simp only [hu]
  refine ⟨?_, ?_, ?_⟩
  · simp [insertStaker]
  · intro hp
    simp only [hp, if_pos rfl, if_true, write_order_by_block_height]
    rw [lookupBO_insertBO_self]
  · intro hp
    simp only [if_neg hp]

/-- Concrete instantiation of `c4_settle_entry`: user 9 with balance 300
covering a pending bet of 100 at block 2 is debited and the entry filled. -/
theorem c4_settle_entry_witness :
    (settleOneOrder (fun u => if u = 9 then some ⟨(0, 10), 100⟩ else none)
        ⟨fun _ => 0, fun _ _ _ => 0⟩ 2 100
        ((fun u => if u = 9 then some ⟨9, [], 300, 0, 0, 0⟩ else none), [])
        (9, ⟨100, .Pending⟩)).1 9
      = some ⟨9, [], 200, 0, 0, 0⟩ := by
  have h := c4_settle_entry (fun u => if u = 9 then some ⟨(0, 10), 100⟩ else none)
    ⟨fun _ => 0, fun _ _ _ => 0⟩ 2 100
    (fun u => if u = 9 then some ⟨9, [], 300, 0, 0, 0⟩ else none) []
    9 ⟨100, .Pending⟩ ⟨9, [], 300, 0, 0, 0⟩ (by decide)
  rw [h.1]
  decide

/-! ## PSBT verifier (src/canisters/dapp/dod/mod/src/verifier.rs)

The bitcoin-library types are embedded structurally: scripts and keys are
byte lists, txids are their display strings.  Genuinely external
computations are abstracted: Schnorr verification becomes the oracle
`sigOk : Nat → Bool` (per input index), `Psbt::from_str` becomes an
`Option Psbt` argument, `get_script_from_address` becomes an oracle, the
txid hash becomes a field of the transaction, and
`ParsedEnvelope::from_transaction` (whose `crate::protocol` module is not
in src) is modelled from the spec as an `envelopes` field. -/

/-- `hex::encode` of one byte: always two lowercase hex chars. -/
def byteToHex (b : Nat) : String :=
  String.mk [hexDigitChar (b / 16 % 16), hexDigitChar (b % 16)]

/-- `hex::encode` of a byte vector. -/
def hexEncode (bytes : List Nat) : String :=
  String.join (bytes.map byteToHex)

/-- Modelled from the spec: `MAGIC_VALUE`, the "fixed sentinel" for the
commit input's witness-UTXO value, lives in the missing `crate::protocol`
module.  The number below is the witness value of the repo's own commit
test vector; no claim depends on it. -/
def MAGIC_VALUE : Nat := 87960

/-- Modelled from the spec: mining op carried by the envelope (§4.B). -/
inductive DodOps
  | Mine
  deriving DecidableEq, Repr

/-- Modelled from the spec: asset type carried by the envelope (§4.B). -/
inductive DodAssets
  | DMT
  deriving DecidableEq, Repr

/-- Modelled from the spec: the optional DMT details of the payload; never
inspected by the verifier beyond presence. -/
structure DmtDetails where
  raw : List Nat
  deriving DecidableEq, Repr

/-- Modelled from the spec: the envelope payload `{asset_type, dmt}`. -/
structure DodPayload where
  t : DodAssets
  dmt : Option DmtDetails
  deriving DecidableEq, Repr

/-- Modelled from the spec: `ParsedEnvelope` — `{op_type, stakers (32-byte
keys), payload}` extracted from the reveal witness (§4.B); the extraction
itself lives in the missing `crate::protocol` module. -/
structure ParsedEnvelope where
  op_type : Option DodOps
  stakers : List (List Nat)
  payload : Option DodPayload
  deriving DecidableEq, Repr

structure TxOut where
  value : Nat
  script_pubkey : List Nat
  deriving DecidableEq, Repr

structure OutPoint where
  txid_hex : String
  vout : Nat
  deriving DecidableEq, Repr

structure TxIn where
  previous_output : OutPoint
  deriving DecidableEq, Repr

/-- A transaction, with its txid's display string carried as a field
(abstracting the double-SHA-256) and — modelled from the spec — the
envelopes its witness encodes. -/
structure Tx where
  input : List TxIn
  output : List TxOut
  txid_hex : String
  envelopes : List ParsedEnvelope
  deriving DecidableEq, Repr

structure PsbtInput where
  witness_utxo : Option TxOut
  tap_key_sig : Bool
  tap_internal_key : Option (List Nat)
  tap_script_sigs : Nat
  deriving DecidableEq, Repr

structure Psbt where
  inputs : List PsbtInput
  tx : Tx
  deriving DecidableEq, Repr

/-- `ScriptBuf::is_v1_p2tr`: a 34-byte script `OP_PUSHNUM_1 OP_PUSHBYTES_32
<32 bytes>`. -/
def isV1P2tr (s : List Nat) : Bool :=
  decide (s.length = 34) && decide (s.headD 0 = 81) && decide (s.getD 1 0 = 32)

/-- Modelled from the spec: `vec_to_u832` (missing `crate::protocol`)
converts a byte vector into a 32-byte array, erring otherwise (stakers are
"32-byte keys", §4.B). -/
def vec_to_u832 (v : List Nat) : Except String (List Nat) :=
  if v.length = 32 then .ok v else .error "Invalid u832"

/-- The `for (i, input)` loop of `psbt_verifier` (verifier.rs:163-220):
first failure wins (`break`), inputs without a witness UTXO are skipped by
the `if let`.  The BIP-341 sighash computation is total here (prevouts are
built from these same inputs, so its `Err` arm is unreachable), and the
Schnorr outcome for input `i` is the oracle `sigOk i`. -/
def psbtVerifierLoop (sigOk : Nat → Bool) (i : Nat) :
    List PsbtInput → Option String
  | [] => none
  | inp :: rest =>
    match inp.witness_utxo with
    | none => psbtVerifierLoop sigOk (i + 1) rest
    | some _ =>
      if inp.tap_script_sigs ≠ 0 then some "We only support tap key sig"
      else if inp.tap_key_sig && inp.tap_internal_key.isSome then
        if sigOk i then psbtVerifierLoop sigOk (i + 1) rest
        else some ("tap_key_sig Input " ++ toString i
          ++ ": Taproot signature is invalid")
      else some "We only support tap key sig"

/-- `psbt_verifier` (verifier.rs:155-222): returns the first loop failure,
or the unchanged `err` parameter when every input passes. -/
def psbt_verifier (sigOk : Nat → Bool) (decoded_psbt : Psbt)
    (err : Option String) : Option String :=
  match psbtVerifierLoop sigOk 0 decoded_psbt.inputs with
  | some e => some e
  | none => err

/-- `checked_signed_commit_psbt_b64` (verifier.rs:63-94).  The argument
`psbt_decoded` is `Psbt::from_str`'s result; x-only key decoding succeeds
iff the key tail has 32 bytes (curve-point validity abstracted).  The outer
`Option` is a Rust panic (indexing an empty vector).  The translation keeps
the source verbatim: `psbt_verifier`'s result is DISCARDED, `err` remains
`None`, and only the structural checks decide the outcome. -/
def checked_signed_commit_psbt_b64 (sigOk : Nat → Bool)
    (psbt_decoded : Option Psbt) (pubkey : List Nat) (input_hash : List Nat) :
    Option (Except String (String × List Nat)) :=
  match psbt_decoded with
  | none => some (.error "Cannot decode psbt")
  | some psbt0 =>
    let err : Option String := none
    match pubkey with
    | [] => none
    | _ :: xonly =>
      if xonly.length ≠ 32 then some (.error "Cannot decode xonly")
      else
        match psbt0.inputs with
        | [] => none
        | inp0 :: restInputs =>
          let psbt : Psbt := { psbt0 with
            inputs := { inp0 with tap_internal_key := some xonly } :: restInputs }
          let _discarded := psbt_verifier sigOk psbt err
          if err.isNone then
            let tx := psbt.tx
            match inp0.witness_utxo with
            | none => some (.error "Tap internal key is not match")
            | some w =>
              if w.value ≠ MAGIC_VALUE then
                some (.error "Tap internal key is not match")
              else
                match tx.input with
                | [] => none
                | tin0 :: _ =>
                  if tin0.previous_output.txid_hex ≠ hexEncode input_hash then
                    some (.error "Tap internal key is not match")
                  else if tin0.previous_output.vout ≠ 0 then
                    some (.error "Tap internal key is not match")
                  else
                    match tx.output with
                    | [] => none
                    | tout0 :: _ =>
                      if isV1P2tr tout0.script_pubkey then
                        some (.ok (tx.txid_hex, tout0.script_pubkey))
                      else some (.error "Tap internal key is not match")
          else some (.error (err.getD ""))

/-- `check_signed_reveal_psbt` (verifier.rs:96-153).
`get_script_from_address` is the oracle `addrScript`;
`ParsedEnvelope::from_transaction` is the transaction's `envelopes` field.
The translation keeps both source defects verbatim: the discarded
`psbt_verifier` result, and the `&&` (instead of `||`) in the staker
check, which only errs when the length differs from 1 AND the first staker
mismatches. -/
def check_signed_reveal_psbt (sigOk : Nat → Bool)
    (addrScript : String → Except String (List Nat))
    (psbt_decoded : Option Psbt) (prev_script : List Nat) (pubkey : List Nat)
    (commit_id : String) (miner_address : String) :
    Option (Except String Unit) :=
  match psbt_decoded with
  | none => some (.error "Cannot decode psbt")
  | some psbt =>
    let err : Option String := none
    let _discarded := psbt_verifier sigOk psbt err
    if err.isNone then
      let tx := psbt.tx
      match pubkey with
      | [] => none
      | _ :: staker =>
        match addrScript miner_address with
        | .error e => some (.error e)
        | .ok script_buf =>
          match psbt.inputs with
          | [] => none
          | inp0 :: _ =>
            match inp0.witness_utxo with
            | none =>
              some (.error "Validation failed, block hash might be changed")
            | some w =>
              if w.script_pubkey ≠ prev_script then
                some (.error "Validation failed, block hash might be changed")
              else
                match tx.input with
                | [] => none
                | tin0 :: _ =>
                  if tin0.previous_output.txid_hex ≠ commit_id then
                    some (.error "Validation failed, block hash might be changed")
                  else if tin0.previous_output.vout ≠ 0 then
                    some (.error "Validation failed, block hash might be changed")
                  else
                    match tx.output with
                    | [] => none
                    | tout0 :: _ =>
                      if ¬ (isV1P2tr tout0.script_pubkey = true) then
                        some (.error "Validation failed, block hash might be changed")
                      else if tout0.script_pubkey ≠ script_buf then
                        some (.error "Validation failed, block hash might be changed")
                      else
                        let parsed := tx.envelopes
                        if parsed.length ≠ 1 then
                          some (.error "ParsedEnvelope length is not 1")
                        else
                          match parsed with
                          | [] => none
                          | p :: _ =>
                            if p.op_type ≠ some .Mine then
                              some (.error "Op type is not mine")
                            else
                              match (match p.payload with
                                | some payload =>
                                  if payload.t ≠ DodAssets.DMT then
                                    some "Asset type is not DMT"
                                  else if payload.dmt.isNone then some "DMT is none"
                                  else none
                                | none => none) with
                              | some e => some (.error e)
                              | none =>
                                if p.stakers.length ≠ 1 then
                                  match p.stakers with
                                  | [] => none
                                  | s0 :: _ =>
                                    match vec_to_u832 staker with
                                    | .error e => some (.error e)
                                    | .ok s32 =>
                                      if hexEncode s0 ≠ hexEncode s32 then
                                        some (.error "Staker is not match")
                                      else some (.ok ())
                                else some (.ok ())
    else some (.error (err.getD ""))

/-! ### Concrete PSBT fixtures for the verifier claims -/

def demoP2trScript : List Nat := 81 :: 32 :: List.replicate 32 0

def demoMinerScript : List Nat := 81 :: 32 :: List.replicate 32 7

/-- The reversed block hash the commit must spend. -/
def demoHashRev : List Nat := List.replicate 32 0

/-- A 33-byte compressed pubkey; its 32-byte tail is the expected staker. -/
def demoPubkey : List Nat := 2 :: List.replicate 32 2

def demoCommitTx : Tx :=
  { input := [⟨⟨hexEncode demoHashRev, 0⟩⟩],
    output := [⟨0, demoP2trScript⟩],
    txid_hex := "ab", envelopes := [] }

/-- A commit PSBT whose structural checks all pass: witness value
`MAGIC_VALUE`, spending `(hex(input_hash), 0)`, P2TR output, one Taproot
key-path signature present. -/
def demoCommitPsbt : Psbt :=
  { inputs := [⟨some ⟨MAGIC_VALUE, []⟩, true, some (List.replicate 32 2), 0⟩],
    tx := demoCommitTx }

def demoRevealEnvelope : ParsedEnvelope :=
  { op_type := some .Mine, stakers := [List.replicate 32 2],
    payload := some ⟨.DMT, some ⟨[]⟩⟩ }

def demoRevealTx : Tx :=
  { input := [⟨⟨"ab", 0⟩⟩], output := [⟨0, demoMinerScript⟩],
    txid_hex := "cd", envelopes := [demoRevealEnvelope] }

def demoRevealPsbt : Psbt :=
  { inputs := [⟨some ⟨0, demoP2trScript⟩, true, some (List.replicate 32 2), 0⟩],
    tx := demoRevealTx }

/-- Same reveal but the single staker key differs from the miner's x-only
pubkey tail. -/
def demoRevealEnvelopeBad : ParsedEnvelope :=
  { op_type := some .Mine, stakers := [List.replicate 32 9],
    payload := some ⟨.DMT, some ⟨[]⟩⟩ }

def demoRevealTxBad : Tx :=
  { input := [⟨⟨"ab", 0⟩⟩], output := [⟨0, demoMinerScript⟩],
    txid_hex := "cd", envelopes := [demoRevealEnvelopeBad] }

def demoRevealPsbtBad : Psbt :=
  { inputs := [⟨some ⟨0, demoP2trScript⟩, true, some (List.replicate 32 2), 0⟩],
    tx := demoRevealTxBad }

/-- C1: a failed Schnorr verification does NOT make the verifiers err.
With the signature oracle reporting failure on every input,
`psbt_verifier` itself reports the invalid-signature error — but both
`checked_signed_commit_psbt_b64` and `check_signed_reveal_psbt` discard
that result (`err` is never reassigned from the call at verifier.rs:76 and
verifier.rs:107), so both still return `Ok`. -/
theorem c1_schnorr_failure_ignored :
    psbt_verifier (fun _ => false) demoCommitPsbt none
      = some "tap_key_sig Input 0: Taproot signature is invalid" ∧
    checked_signed_commit_psbt_b64 (fun _ => false) (some demoCommitPsbt)
        demoPubkey demoHashRev
      = some (.ok ("ab", demoP2trScript)) ∧
    psbt_verifier (fun _ => false) demoRevealPsbt none
      = some "tap_key_sig Input 0: Taproot signature is invalid" ∧
    check_signed_reveal_psbt (fun _ => false) (fun _ => .ok demoMinerScript)
        (some demoRevealPsbt) demoP2trScript demoPubkey "ab" "bc1pdemo"
      = some (.ok ()) := by
  refine ⟨by decide, by decide, by decide, by decide⟩

/-- C2: a reveal whose single staker key does NOT equal the miner's x-only
pubkey is still accepted: the staker check at verifier.rs:139-144 uses `&&`
(both `len != 1` AND first-staker mismatch are needed to err), so with
exactly one mismatching staker the condition is false and `Ok(())` is
returned. -/
theorem c2_staker_mismatch_accepted :
    check_signed_reveal_psbt (fun _ => true) (fun _ => .ok demoMinerScript)
        (some demoRevealPsbtBad) demoP2trScript demoPubkey "ab" "bc1pdemo"
      = some (.ok ()) ∧
    demoRevealEnvelopeBad.stakers.length = 1 ∧
    demoRevealEnvelopeBad.stakers ≠ [demoPubkey.drop 1] := by
  refine ⟨by decide, by decide, by decide⟩

/-! ## Bitwork matching and miner submission
(src/canisters/libs/dod_utils/src/bitwork.rs:233-292 and
src/canisters/dapp/dod/mod/src/service/miner.rs) -/

/-- `hex::decode`: pairs of hex chars to bytes; odd length or non-hex
characters fail. -/
def hexDecodeList : List Char → Option (List Nat)
  | [] => some []
  | [_] => none
  | c1 :: c2 :: rest =>
    match hexCharVal c1, hexCharVal c2, hexDecodeList rest with
    | some h, some l, some tail => some ((h * 16 + l) :: tail)
    | _, _, _ => none

def hexDecode (s : String) : Option (List Nat) :=
  hexDecodeList s.data

/-- `u32::from_str_radix(s, 16)` as used on the one-character slices and on
`post_hex` (the `u32` overflow bound is unreachable there). -/
def parseHexNat (s : String) : Option Nat :=
  if s.isEmpty then none
  else
    s.data.foldl
      (fun acc c =>
        match acc, hexCharVal c with
        | some v, some d => some (v * 16 + d)
        | _, _ => none)
      (some 0)

/-- `bitwork_match_hash` (bitwork.rs:233-292).  `str::get` on ASCII strings
is `none` exactly when the index exceeds the length.  The two
`from_str_radix(..).unwrap()` panics (non-hex characters) are modelled with
`.getD 0`; every reachable caller passes hex strings. -/
def bitwork_match_hash (current_hash target_hash : String) (bitwork : Bitwork)
    (reverse : Bool) : Except String Bool :=
  match hexDecode target_hash with
  | none => .error "Invalid target hash"
  | some target0 =>
    if target0.length ≠ 32 then .error "Invalid target hash width"
    else
      let target := if reverse then target0.reverse else target0
      let target_string := hexEncode target
      if current_hash.length < bitwork.pre then .error "Invalid bitwork"
      else if current_hash.length < bitwork.pre + 1 then .error "Invalid bitwork"
      else if target_string.length < bitwork.pre then .error "Invalid bitwork"
      else if target_string.length < bitwork.pre + 1 then .error "Invalid bitwork"
      else
        let current_pre := String.mk (current_hash.data.take bitwork.pre)
        let current_post := String.mk ((current_hash.data.drop bitwork.pre).take 1)
        let target_pre := String.mk (target_string.data.take bitwork.pre)
        if current_pre = target_pre
            ∧ (parseHexNat current_post).getD 0 ≥ (parseHexNat bitwork.post_hex).getD 0
        then .ok true
        else .ok false

/-- `dod_utils::types::MinerStatus` (module absent from src; variants from
usage in miner.rs). -/
inductive MinerStatus
  | Activate
  | Deactivate
  deriving DecidableEq, Repr

/-- `dod_utils::types::MinerInfo` (module absent from src; layout from the
spec data model §3 and field usage in miner.rs / service/mod.rs). -/
structure MinerInfo where
  owner : Principal
  btc_address : String
  ecdsa_pubkey : List Nat
  status : MinerStatus
  reward_cycles : Option Nat
  claimed_dod : Nat
  total_dod : Nat
  deriving DecidableEq, Repr

/-- `dod_utils::types::MinerCandidate` (module absent from src; layout from
the spec data model §3 and the literal in miner.rs:205-211). -/
structure MinerCandidate where
  btc_address : String
  cycles_price : Nat
  signed_commit_psbt : String
  signed_reveal_psbt : String
  submit_time : Nat
  deriving DecidableEq, Repr

structure MinerSubmitResponse where
  block_height : Nat
  cycles_price : Nat
  deriving DecidableEq, Repr

/-- `dod_utils::types::BlockData` (module absent from src; layout from the
spec data model §3 and the literals in service/mod.rs:1116-1127,
1347-1362). -/
structure BlockData where
  height : Nat
  rewards : Nat
  winner : Option MinerInfo
  difficulty : Bitwork
  hash : List Nat
  block_time : Nat
  next_block_time : Nat
  history : Bool
  cycle_burned : Nat
  dod_burned : Nat
  deriving DecidableEq, Repr

structure BlockSigs where
  commit_tx : List Nat
  reveal_tx : List Nat
  deriving DecidableEq, Repr

/-- `MINERS`: keyed by btc address. -/
abbrev Miners := List (String × MinerInfo)

/-- The per-height `MinterCandidates.candidates` BTreeMap. -/
abbrev CandidateMap := List (String × MinerCandidate)

/-- `CANDIDATES`: height to candidate map. -/
abbrev Candidates := List (Nat × CandidateMap)

/-- `BLOCKS`: height to block. -/
abbrev Blocks := List (Nat × BlockData)

def lookupAssoc {κ ν : Type} [DecidableEq κ] (m : List (κ × ν)) (k : κ) :
    Option ν :=
  (m.find? (fun e => decide (e.1 = k))).map (fun e => e.2)

def insertAssoc {κ ν : Type} [DecidableEq κ] (m : List (κ × ν)) (k : κ)
    (v : ν) : List (κ × ν) :=
  match m with
  | [] => [(k, v)]
  | e :: rest => if e.1 = k then (k, v) :: rest else e :: insertAssoc rest k v

theorem lookupAssoc_insertAssoc_self {κ ν : Type} [DecidableEq κ]
    (m : List (κ × ν)) (k : κ) (v : ν) :
    lookupAssoc (insertAssoc m k v) k = some v := by
  induction m with
  | nil => simp [insertAssoc, lookupAssoc, List.find?]
  | cons e rest ih =>
    by_cases h : e.1 = k
    · simp [insertAssoc, h, lookupAssoc, List.find?]
    · simp only [insertAssoc, if_neg h]
      simpa [lookupAssoc, List.find?, h] using ih

theorem lookupAssoc_insertAssoc_ne {κ ν : Type} [DecidableEq κ]
    (m : List (κ × ν)) (k k' : κ) (v : ν) (h : k' ≠ k) :
    lookupAssoc (insertAssoc m k v) k' = lookupAssoc m k' := by
  have h2 : k ≠ k' := Ne.symm h
  induction m with
  | nil => simp [insertAssoc, lookupAssoc, List.find?, h2]
  | cons e rest ih =>
    by_cases he : e.1 = k
    · simp [insertAssoc, he, lookupAssoc, List.find?, h2]
    · simp only [insertAssoc, if_neg he]
      by_cases he' : e.1 = k'
      · simp [lookupAssoc, List.find?, he']
      · simpa [lookupAssoc, List.find?, he'] using ih

/-- `check_miner_if_existed` (miner.rs:46-54): scan for a miner with this
owner. -/
def check_miner_if_existed (miners : Miners) (caller : Principal) :
    Option MinerInfo :=
  (miners.find? (fun e => decide (e.2.owner = caller))).map (fun e => e.2)

/-- `get_miner_by_address` (miner.rs:132-137). -/
def get_miner_by_address (miners : Miners) (address : String) :
    Option MinerInfo :=
  lookupAssoc miners address

/-- `check_if_in_candidate` (miner.rs:119-130). -/
def check_if_in_candidate (cands : Candidates) (btc_address : String)
    (block : Nat) : Option MinerCandidate :=
  lookupAssoc ((lookupAssoc cands block).getD []) btc_address

/-- `add_block_candidate` (miner.rs:56-74): insert into the per-height
map, creating it when absent. -/
def add_block_candidate (cands : Candidates) (height : Nat)
    (c : MinerCandidate) : Candidates :=
  match lookupAssoc cands height with
  | none => insertAssoc cands height [(c.btc_address, c)]
  | some m => insertAssoc cands height (insertAssoc m c.btc_address c)

/-- `get_last_block` (service/block.rs:5-7): `BTreeMap::last_key_value`,
i.e. the entry with the greatest height. -/
def get_last_block (blocks : Blocks) : Option (Nat × BlockData) :=
  blocks.foldl
    (fun acc e =>
      match acc with
      | none => some e
      | some a => if a.1 ≤ e.1 then some e else some a)
    none

/-- `get_block_by_height` (service/block.rs:9-11). -/
def get_block_by_height (blocks : Blocks) (height : Nat) : Option BlockData :=
  lookupAssoc blocks height

/-- The registry slice of state touched by `miner_submit_hashes`. -/
structure MinerState where
  miners : Miners
  candidates : Candidates
  blocks : Blocks
  deriving Repr

/-- `miner_submit_hashes` (miner.rs:149-222).  `commitCheck` and
`revealCheck` abstract `checked_signed_commit_psbt_b64` /
`check_signed_reveal_psbt` applied to the base64 text (decoding plus the
embedded verifier above); `now` is `ic_cdk::api::time()`.  The outer
`Option` is the `get_last_block().unwrap()` panic.  Note: the stored
candidate carries the CALLER-SUPPLIED `btc_address` argument, which is
never compared against `miner.btc_address`. -/
def miner_submit_hashes
    (commitCheck : String → List Nat → List Nat → Except String (String × List Nat))
    (revealCheck : String → List Nat → List Nat → String → String → Except String Unit)
    (now : Nat) (st : MinerState) (caller : Principal) (btc_address : String)
    (signed_commit_psbt signed_reveal_psbt : String) (cycles_price : Nat) :
    Option (Except String MinerSubmitResponse × MinerState) :=
  match check_miner_if_existed st.miners caller with
  | none => some (.error "Miner not found", st)
  | some miner =>
    match get_last_block st.blocks with
    | none => none
    | some (_, block) =>
      if block.winner.isSome then some (.error "Block already mined", st)
      else if block.next_block_time < now then
        some (.error "Not time to submit hash", st)
      else if (check_if_in_candidate st.candidates btc_address block.height).isSome then
        some (.error "Miner already submitted hash", st)
      else
        let rev := block.hash.reverse
        match commitCheck signed_commit_psbt miner.ecdsa_pubkey rev with
        | .error e => some (.error e, st)
        | .ok (commit_txid, script_buf) =>
          match revealCheck signed_reveal_psbt script_buf miner.ecdsa_pubkey
              commit_txid miner.btc_address with
          | .error e => some (.error e, st)
          | .ok _ =>
            let block_hash := hexEncode block.hash
            match bitwork_match_hash commit_txid block_hash block.difficulty false with
            | .error e => some (.error e, st)
            | .ok result =>
              if result = false then some (.error "Bitwork match failed", st)
              else
                some (.ok ⟨block.height, cycles_price⟩,
                  { st with candidates :=
                      (add_block_candidate st.candidates block.height
                        ⟨btc_address, cycles_price, signed_commit_psbt,
                          signed_reveal_psbt, now⟩) })

/-! ## The block engine (src/canisters/dapp/dod/mod/src/service/mod.rs:1099-1368) -/

/-- Modelled from the spec: the `Ord` by which `candidates.sort()` arranges
submissions — ascending `cycles_price`, ties by ascending `submit_time`
(§3 `MinerCandidate`; the impl lives in the missing `dod_utils::types`
module).  Residual ties keep list order (stable merge sort over the
BTreeMap's address-ordered values, spec invariant 7). -/
def candLE (a b : MinerCandidate) : Bool :=
  decide (a.cycles_price < b.cycles_price)
  || (decide (a.cycles_price = b.cycles_price)
      && (decide (a.submit_time < b.submit_time)
          || decide (a.submit_time = b.submit_time)))

/-- The candidate ordering as a decidable relation. -/
def candLEP (a b : MinerCandidate) : Prop := candLE a b = true

instance : DecidableRel candLEP := by
  unfold candLEP
  infer_instance

theorem candLE_total (a b : MinerCandidate) : (candLE a b || candLE b a) = true := by
  simp only [candLE, Bool.or_eq_true, Bool.and_eq_true, decide_eq_true_eq]
  omega

theorem candLE_trans (a b c : MinerCandidate) :
    candLE a b = true → candLE b c = true → candLE a c = true := by
  simp only [candLE, Bool.or_eq_true, Bool.and_eq_true, decide_eq_true_eq]
  omega

instance : IsTotal MinerCandidate candLEP :=
  ⟨fun a b => by
    have h := candLE_total a b
    simp only [Bool.or_eq_true] at h
    exact h⟩

instance : IsTrans MinerCandidate candLEP :=
  ⟨fun a b c => candLE_trans a b c⟩

/-- Address ordering for the BTreeMap value iteration. -/
def addrLEP (a b : String × MinerCandidate) : Prop := a.1 < b.1 ∨ a.1 = b.1

instance : DecidableRel addrLEP := by
  unfold addrLEP
  infer_instance

/-- `get_block_candidates` (miner.rs:76-89): the per-height BTreeMap's
values in ascending btc-address order (a stable structural sort of the
association list; keys are unique, so any sort realises the BTreeMap
iteration order). -/
def get_block_candidates (cands : Candidates) (height : Nat) :
    List MinerCandidate :=
  (List.insertionSort addrLEP ((lookupAssoc cands height).getD [])).map
    (fun e => e.2)

/-- `candidates.sort()` in `generate_blocks` (service/mod.rs:1149).
Rust's `Vec::sort` is a stable sort; `insertionSort` is the stable sort
that Lean can evaluate structurally, and stable sorts under the same total
preorder coincide. -/
def sortCandidates (l : List MinerCandidate) : List MinerCandidate :=
  List.insertionSort candLEP l

/-- The head of the sorted candidate list is minimal for `candLE`. -/
theorem sortCandidates_head_min (l : List MinerCandidate)
    (c : MinerCandidate) (rest : List MinerCandidate)
    (h : sortCandidates l = c :: rest) : ∀ x ∈ l, candLE c x = true := by
  intro x hx
  have hp : (List.insertionSort candLEP l).Pairwise candLEP :=
    List.sorted_insertionSort candLEP l
  rw [show List.insertionSort candLEP l = sortCandidates l from rfl, h] at hp
  have hmem : x ∈ c :: rest := by
    rw [← h]
    exact ((List.perm_insertionSort candLEP l).mem_iff).2 hx
  rcases List.mem_cons.1 hmem with rfl | hxr
  · simp [candLE]
  · exact (List.pairwise_cons.1 hp).1 x hxr

/-- `get_block_total_cycles` (service/mod.rs:1887-1896).  With
`with_filled = false` — settlement's call — the sum covers Pending AND
Filled entries and excludes Cancelled ones. -/
def get_block_total_cycles (uo : UserOrders) (selfId : Principal)
    (bo : BlockOrders) (block : Nat) (with_filled : Bool) : Nat :=
  (get_orders_by_block_height uo selfId bo block).foldl
    (fun acc x =>
      match with_filled, x.2.status with
      | true, .Filled => acc
      | _, .Cancelled => acc
      | _, _ => acc + x.2.value)
    0

/-- The winner/reinvest step of `generate_blocks`
(service/mod.rs:1166-1193): the head wins iff
`cycle_deposit > head.cycles_price` (strict); the winning miner's owner is
credited `cycles_price` on their staker balance.  `none` models the
`.unwrap()` panics of `get_miner_by_address` and
`increase_user_cycle_balance`. -/
def pickWinner (miners : Miners) (stakers : Stakers)
    (head : Option MinerCandidate) (cycle_deposit : Nat) :
    Option (Option MinerInfo × Nat × Stakers) :=
  match head with
  | some c =>
    if cycle_deposit > c.cycles_price then
      match get_miner_by_address miners c.btc_address with
      | none => none
      | some mi =>
        match stakers mi.owner with
        | none => none
        | some u =>
          some (some { mi with reward_cycles := some c.cycles_price },
            (cycle_deposit - c.cycles_price) / 2,
            insertStaker stakers mi.owner
              { u with balance := u.balance + c.cycles_price })
    else some (none, cycle_deposit / 2, stakers)
  | none => some (none, cycle_deposit / 2, stakers)

/-- The block-sigs step of `generate_blocks` (service/mod.rs:1211-1231):
records the winner's decoded PSBTs; `none` models the base64 `.unwrap()`
panic (and the unreachable `candidates[0]` with a winner but no head). -/
def writeSigs (b64 : String → Option (List Nat)) (sigs : List (Nat × BlockSigs))
    (height : Nat) (winner : Option MinerInfo) (head : Option MinerCandidate) :
    Option (List (Nat × BlockSigs)) :=
  match winner with
  | none => some sigs
  | some _ =>
    match head with
    | none => none
    | some c =>
      match b64 c.signed_commit_psbt, b64 c.signed_reveal_psbt with
      | some ct, some rt => some (insertAssoc sigs height ⟨ct, rt⟩)
      | _, _ => none

/-- Engine configuration (the `get_*` config accessors of
service/mod.rs:1100-1104, all `.unwrap()`ed there). -/
structure EngineConfig where
  block_time_interval : Nat
  difficulty_adjust_epoch : Nat
  default_rewards : Nat
  start_difficulty : Bitwork
  selfId : Principal

/-- Oracles for the engine's external and floating-point computations:
`now` = `ic_cdk::api::time()`, `newHash` = the reversed `fake_32()` bytes,
`rewardAt` = `get_block_reward_by_height` (f64 halving), `rewardFloor` as in
`SettleOracles`, `selfBurn h` = `get_user_block_reward(h, id()).0` (f64
share for the canister itself), `b64decode` = base64 decoding. -/
structure EngineOracles where
  now : Nat
  newHash : List Nat
  rewardAt : Nat → Nat
  rewardFloor : Nat → Nat → Nat → Nat
  selfBurn : Nat → Nat
  b64decode : String → Option (List Nat)

structure EngineState where
  miners : Miners
  candidates : Candidates
  blocks : Blocks
  stakers : Stakers
  userOrders : UserOrders
  blockOrders : BlockOrders
  sigs : List (Nat × BlockSigs)
  considerIncrease : Option Nat
  considerDecrease : Option Nat
  timerArmed : Bool

/-- The difficulty-adjustment step of `generate_blocks`
(service/mod.rs:1283-1344), with `DIFFICULTY_ADJUST_STEP = 1`; returns the
next difficulty and the updated `(consider_increase, consider_decrease)`
markers.  `none` models the `.unwrap()` on a bitwork error. -/
def adjustDifficulty (cfg : EngineConfig) (winnerAbsent : Bool)
    (considerInc considerDec : Option Nat) (last_difficulty : Bitwork)
    (settled_height : Nat) : Option (Bitwork × Option Nat × Option Nat) :=
  if winnerAbsent then
    match considerDec with
    | none =>
      some (last_difficulty, none,
        some (settled_height + cfg.difficulty_adjust_epoch))
    | some i =>
      if settled_height + 1 = i then
        match bitwork_minus_bit_hex last_difficulty 1 with
        | .error _ => none
        | .ok decreased =>
          let bw := if bitworkValue decreased < bitworkValue cfg.start_difficulty
            then cfg.start_difficulty else decreased
          some (bw, considerInc, some (i + cfg.difficulty_adjust_epoch))
      else some (last_difficulty, considerInc, considerDec)
  else
    match considerInc with
    | none =>
      some (last_difficulty,
        some (settled_height + cfg.difficulty_adjust_epoch), none)
    | some i =>
      if settled_height + 1 = i then
        match bitwork_plus_bit_hex last_difficulty 1 with
        | .error _ => none
        | .ok increased =>
          some (increased, some (i + cfg.difficulty_adjust_epoch), considerDec)
      else some (last_difficulty, considerInc, considerDec)

/-- `DodService::generate_blocks` (service/mod.rs:1099-1368) as a pure
transition.  `timer_stop` / `set_timer_delay` become the `timerArmed` flag;
the token-bridge spawns and `execute_cycles_on_block_data` touch no engine
state; `none` models a panic.  On the early return at
service/mod.rs:1265-1268 (`total_burn == default_rewards`) the function
exits BEFORE block N is rewritten, before block N+1 is created, and before
the one-shot timer is re-armed. -/
def generate_blocks (cfg : EngineConfig) (orc : EngineOracles)
    (st0 : EngineState) : Option EngineState :=
  match get_last_block st0.blocks with
  | none =>
    some { st0 with
      considerIncrease := some (0 + cfg.difficulty_adjust_epoch),
      blocks := (insertAssoc st0.blocks 0
        ⟨0, cfg.default_rewards, none, cfg.start_difficulty, orc.newHash,
          orc.now, orc.now + cfg.block_time_interval, false, 0, 0⟩) }
  | some (_, last_block) =>
    let st := { st0 with timerArmed := false }
    let candidates :=
      sortCandidates (get_block_candidates st.candidates last_block.height)
    let cycle_deposit := get_block_total_cycles st.userOrders cfg.selfId
      st.blockOrders last_block.height false
    match pickWinner st.miners st.stakers candidates.head? cycle_deposit with
    | none => none
    | some (_miner, treasury_reinvest, stakers1) =>
      let to_burn := treasury_reinvest
      let ob := user_put_order_v2 st.userOrders st.blockOrders cfg.selfId
        (last_block.height + 1, last_block.height + 2) treasury_reinvest
      let _block := { last_block with winner := _miner, history := true }
      match writeSigs orc.b64decode st.sigs _block.height _miner
          candidates.head? with
      | none => none
      | some sigs1 =>
        let sb := update_users_balance_v2 ob.1 cfg.selfId
          ⟨orc.rewardAt, orc.rewardFloor⟩ stakers1 ob.2
          last_block.height cycle_deposit
        let _block1 := { _block with cycle_burned := to_burn }
        let total_burn := orc.selfBurn _block1.height
        if total_burn = cfg.default_rewards then
          some { st with
                  userOrders := ob.1, blockOrders := sb.2,
                  stakers := sb.1, sigs := sigs1 }
        else
          let _block2 := { _block1 with dod_burned := total_burn }
          let blocks1 := insertAssoc st.blocks _block2.height _block2
          match adjustDifficulty cfg _miner.isNone st.considerIncrease
              st.considerDecrease last_block.difficulty _block2.height with
          | none => none
          | some (bw, ci, cd) =>
            let nb : BlockData :=
              ⟨last_block.height + 1, orc.rewardAt (last_block.height + 1),
                none, bw, orc.newHash, orc.now,
                orc.now + cfg.block_time_interval, false, 0, 0⟩
            some { st with
                    userOrders := ob.1, blockOrders := sb.2,
                    stakers := sb.1, sigs := sigs1,
                    blocks := (insertAssoc blocks1 nb.height nb),
                    considerIncrease := ci, considerDecrease := cd,
                    timerArmed := true }

/-! ### Claims about submission and settlement -/

/-- A txid whose every nibble is `a`, trivially matching difficulty
`(0, "0")`. -/
def demoTxid64 : String := String.mk (List.replicate 64 'a')

def demoMiner : MinerInfo := ⟨5, "addrA", demoPubkey, .Activate, none, 0, 0⟩

/-- An open block: no winner, submission window ending at t = 1000 ns. -/
def demoOpenBlock : BlockData :=
  ⟨0, 50, none, ⟨0, "0"⟩, List.replicate 32 0, 0, 1000, false, 0, 0⟩

def demoMinerState : MinerState :=
  ⟨[("addrA", demoMiner)], [], [(0, demoOpenBlock)]⟩

/-- C8: a submission arriving at exactly `now == next_block_time` is NOT
rejected — the guard at miner.rs:165 is `block.next_block_time < now`
(strict) — and with valid PSBTs and matching bitwork it succeeds, so the
window-closed claim fails at the boundary and "succeeds past the window for
no input" fails too. -/
theorem c8_boundary_counterexample :
    demoOpenBlock.next_block_time = 1000 ∧
    (miner_submit_hashes (fun _ _ _ => .ok (demoTxid64, []))
        (fun _ _ _ _ _ => .ok ()) 1000 demoMinerState 5 "addrA" "c" "r" 7).map
        Prod.fst
      = some (.ok ⟨0, 7⟩) := by
  refine ⟨rfl, by decide⟩

/-- C8 (amended): with a registered caller and an unmined last block, the
window-closed error is returned exactly when `now > next_block_time`; when
`now ≤ next_block_time` (including equality) the submission proceeds and
succeeds whenever the duplicate check, both PSBT checks and the bitwork
match succeed. -/
theorem c8_submission_window
    (commitCheck : String → List Nat → List Nat → Except String (String × List Nat))
    (revealCheck : String → List Nat → List Nat → String → String → Except String Unit)
    (now : Nat) (st : MinerState) (caller : Principal)
    (btc_address cp rp : String) (price : Nat)
    (m : MinerInfo) (k : Nat) (b : BlockData)
    (hm : check_miner_if_existed st.miners caller = some m)
    (hb : get_last_block st.blocks = some (k, b))
    (hw : b.winner = none) :
    (b.next_block_time < now →
      miner_submit_hashes commitCheck revealCheck now st caller btc_address
          cp rp price
        = some (.error "Not time to submit hash", st))
    ∧ (∀ tid sb, ¬ b.next_block_time < now →
        check_if_in_candidate st.candidates btc_address b.height = none →
        commitCheck cp m.ecdsa_pubkey b.hash.reverse = .ok (tid, sb) →
        revealCheck rp sb m.ecdsa_pubkey tid m.btc_address = .ok () →
        bitwork_match_hash tid (hexEncode b.hash) b.difficulty false = .ok true →
        miner_submit_hashes commitCheck revealCheck now st caller btc_address
            cp rp price
          = some (.ok ⟨b.height, price⟩,
              { st with candidates :=
                  (add_block_candidate st.candidates b.height
                    ⟨btc_address, price, cp, rp, now⟩) })) := by
  constructor
  · intro hlt
    simp [miner_submit_hashes, hm, hb, hw, hlt]
  · intro tid sb hnlt hdup hcommit hreveal hbw
    simp [miner_submit_hashes, hm, hb, hw, hnlt, hdup, hcommit, hreveal, hbw]

/-- Concrete instantiation of `c8_submission_window`: one tick after the
window end the submission is rejected with the window error. -/
theorem c8_submission_window_witness :
    miner_submit_hashes (fun _ _ _ => .ok (demoTxid64, []))
        (fun _ _ _ _ _ => .ok ()) 1001 demoMinerState 5 "addrA" "c" "r" 7
      = some (.error "Not time to submit hash", demoMinerState) :=
  (c8_submission_window (fun _ _ _ => .ok (demoTxid64, []))
      (fun _ _ _ _ _ => .ok ()) 1001 demoMinerState 5 "addrA" "c" "r" 7
      demoMiner 0 demoOpenBlock (by decide) (by decide) (by decide)).1
    (by decide)

def c10Candidate : MinerCandidate := ⟨"addrB", 1, "c", "r", 500⟩

def c10cfg : EngineConfig := ⟨1000, 4, 50, ⟨0, "0"⟩, 0⟩

def c10orc : EngineOracles :=
  ⟨500, List.replicate 32 1, fun _ => 50, fun _ _ _ => 0, fun _ => 0,
    fun _ => some []⟩

/-- The engine state after the rogue submission of
`c10_unregistered_candidate_address`: candidate stored under "addrB",
registry only knows "addrA", and user 9's order makes the deposit (50)
exceed the candidate's price (1), so settlement must look the winner up. -/
def c10state : EngineState :=
  ⟨[("addrA", demoMiner)], [(0, [("addrB", c10Candidate)])],
    [(0, demoOpenBlock)],
    (fun u => if u = 9 then some ⟨9, [], 100, 0, 0, 0⟩ else none),
    (fun u => if u = 9 then some ⟨(0, 10), 50⟩ else none),
    [((0, 9), ⟨50, .Pending⟩)], [], none, none, true⟩

/-- C10: `miner_submit_hashes` stores the CALLER-SUPPLIED `btc_address`
without comparing it to the registered `miner.btc_address`: owner 5 is
registered under "addrA", yet a submission naming "addrB" succeeds and the
candidate map now holds an address absent from the registry; the settlement
tick on such a state panics at `get_miner_by_address(..).unwrap()`
(service/mod.rs:1176), modelled as `generate_blocks` trapping. -/
theorem c10_unregistered_candidate_address :
    (miner_submit_hashes (fun _ _ _ => .ok (demoTxid64, []))
        (fun _ _ _ _ _ => .ok ()) 500 demoMinerState 5 "addrB" "c" "r" 1).map
        (fun r => (r.1,
          check_if_in_candidate r.2.candidates "addrB" 0,
          get_miner_by_address r.2.miners "addrB"))
      = some (.ok ⟨0, 1⟩, some c10Candidate, none) ∧
    (generate_blocks c10cfg c10orc c10state).isNone = true := by
  refine ⟨by decide, by decide⟩

def c3cfg : EngineConfig := ⟨1000, 4, 50, ⟨0, "0"⟩, 0⟩

/-- Oracles for the early-return run: the canister's own share of the block
reward (`selfBurn`) equals `default_rewards = 50`. -/
def c3orc : EngineOracles :=
  ⟨2000, List.replicate 32 1, fun _ => 50, fun _ _ _ => 0, fun _ => 50,
    fun _ => some []⟩

def c3state : EngineState :=
  ⟨[], [], [(0, demoOpenBlock)], (fun _ => none), (fun _ => none), [], [],
    none, none, true⟩

/-- C3: when the protocol's own reward share equals `default_rewards`, the
`return` at service/mod.rs:1267 fires BEFORE block N+1 is created and
before the one-shot timer is re-armed: after the tick there is no block at
height 1 and no timer. -/
theorem c3_early_return_counterexample :
    c3orc.selfBurn demoOpenBlock.height = c3cfg.default_rewards ∧
    (generate_blocks c3cfg c3orc c3state).map
        (fun s => (get_block_by_height s.blocks 1, s.timerArmed))
      = some (none, false) := by
  refine ⟨rfl, by decide⟩

/-- C3 (amended): whenever the protocol's own reward share differs from
`default_rewards` (and the tick does not panic), `generate_blocks` appends
exactly the block of height `last.height + 1` — fresh hash, rewards for the
next height, no winner — and re-arms the one-shot timer; in the
`selfBurn = default_rewards` case neither happens
(`c3_early_return_counterexample`). -/
theorem c3_new_block_and_timer (cfg : EngineConfig) (orc : EngineOracles)
    (st st2 : EngineState) (k : Nat) (last : BlockData)
    (hlast : get_last_block st.blocks = some (k, last))
    (hburn : orc.selfBurn last.height ≠ cfg.default_rewards)
    (hrun : generate_blocks cfg orc st = some st2) :
    (∃ bw, get_block_by_height st2.blocks (last.height + 1)
        = some ⟨last.height + 1, orc.rewardAt (last.height + 1), none, bw,
            orc.newHash, orc.now, orc.now + cfg.block_time_interval,
            false, 0, 0⟩)
    ∧ st2.timerArmed = true := by
  unfold generate_blocks at hrun
  rw [hlast] at hrun
  simp only [] at hrun
  split at hrun
  · exact absurd hrun (by simp)
  · split at hrun
    · exact absurd hrun (by simp)
    · split at hrun
      · exact absurd hrun (fun hh => hburn (by simpa using ‹_›))
      · split at hrun
        · exact absurd hrun (by simp)
        · rename_i miner reinvest stakers1 sigs1 hneq bw ci cd hadj
          have h2 := Option.some.inj hrun
          subst h2
          refine ⟨⟨bw, ?_⟩, rfl⟩
          simp only [get_block_by_height]
          exact lookupAssoc_insertAssoc_self _ _ _

/-- Oracles with the self share (0) different from `default_rewards`. -/
def c3orcB : EngineOracles :=
  ⟨2000, List.replicate 32 1, fun _ => 50, fun _ _ _ => 0, fun _ => 0,
    fun _ => some []⟩

/-- Concrete instantiation of `c3_new_block_and_timer`: on the same state a
tick with self share 0 ≠ 50 produces block 1 and re-arms the timer. -/
theorem c3_new_block_and_timer_witness :
    (generate_blocks c3cfg c3orcB c3state).map
        (fun s => ((get_block_by_height s.blocks 1).map BlockData.height,
          s.timerArmed))
      = some (some 1, true) := by
  cases hrun : generate_blocks c3cfg c3orcB c3state with
  | none =>
    have hne : (generate_blocks c3cfg c3orcB c3state).isNone = false := by decide
    rw [hrun] at hne
    simp at hne
  | some st2 =>
    obtain ⟨⟨bw, hb1⟩, ht⟩ := c3_new_block_and_timer c3cfg c3orcB c3state st2 0
      demoOpenBlock (by decide) (by decide) hrun
    rw [show demoOpenBlock.height + 1 = 1 from rfl] at hb1
    show some ((get_block_by_height st2.blocks 1).map BlockData.height,
      st2.timerArmed) = some (some 1, true)
    rw [hb1, ht]
    rfl

def c5candA : MinerCandidate := ⟨"a", 5, "", "", 10⟩

def c5candB : MinerCandidate := ⟨"b", 3, "", "", 20⟩

def c5cands : List MinerCandidate := [c5candA, c5candB]

def c5miner : MinerInfo := ⟨9, "b", [], .Activate, none, 0, 0⟩

def c5miners : Miners := [("b", c5miner)]

def c5stakers : Stakers := fun u => if u = 9 then some ⟨9, [], 0, 0, 0, 0⟩ else none

/-- C5 (candidate ordering modelled from the spec): the head of the sorted
candidate list minimises `(cycles_price, submit_time)`; it is chosen as
winner — with `reward_cycles` set and the owner's balance credited — iff
`cycle_deposit > head.cycles_price` (strict); otherwise (equality included)
there is no winner and the reinvested amount is `cycle_deposit / 2`. -/
theorem c5_winner_strict (miners : Miners) (stakers : Stakers)
    (l : List MinerCandidate) (c : MinerCandidate) (rest : List MinerCandidate)
    (deposit : Nat) (mi : MinerInfo) (u : UserDetail)
    (hsort : sortCandidates l = c :: rest)
    (hmi : get_miner_by_address miners c.btc_address = some mi)
    (hu : stakers mi.owner = some u) :
    (∀ x ∈ l, candLE c x = true)
    ∧ (deposit > c.cycles_price →
        pickWinner miners stakers (sortCandidates l).head? deposit
          = some (some { mi with reward_cycles := some c.cycles_price },
              (deposit - c.cycles_price) / 2,
              insertStaker stakers mi.owner
                { u with balance := u.balance + c.cycles_price }))
    ∧ (¬ deposit > c.cycles_price →
        pickWinner miners stakers (sortCandidates l).head? deposit
          = some (none, deposit / 2, stakers)) := by
  refine ⟨sortCandidates_head_min l c rest hsort, ?_, ?_⟩
  · intro hgt
    rw [hsort]
    simp [pickWinner, hgt, hmi, hu]
  · intro hle
    rw [hsort]
    simp [pickWinner, hle]

/-- Concrete instantiation of `c5_winner_strict` at the boundary
`cycle_deposit = head.cycles_price = 3`: no winner, reinvest `3 / 2`. -/
theorem c5_winner_strict_witness :
    pickWinner c5miners c5stakers (sortCandidates c5cands).head? 3
      = some (none, 3 / 2, c5stakers) :=
  (c5_winner_strict c5miners c5stakers c5cands c5candB [c5candA] 3 c5miner
      ⟨9, [], 0, 0, 0, 0⟩ (by decide) (by decide) (by decide)).2.2
    (by decide)

end DOD
